import Mathlib

/-!
Verification of the multi-tier user-CRUD application.

The repository ships a React client (`frontend/src/App.js`), API test
scripts and deployment documentation.  The backend itself
(`backend/server.js`, `backend/db.js`) is described by the specification
and by the repository's own README and API-testing guide but its source
is not part of the checked-out tree, so the Data Access Layer and the
Request Handler Layer below are modelled from the specification; the
browser client is embedded directly from `frontend/src/App.js`.
-/

namespace MTApp

/-- A persisted user row: `id` store-assigned primary key, `name`,
`email`, and the store-assigned insertion timestamp `created_at`
(modelled as a natural number). -/
structure User where
  id : Nat
  name : String
  email : String
  created_at : Nat
deriving Repr, DecidableEq

/-- Modelled from the spec: the relational store backing User
persistence (`backend/db.js` / PostgreSQL are not under `src/`).
`rows` are the current table contents, `nextId` the next value of the
`SERIAL` id sequence, `usedIds` every id the sequence has ever handed
out (ids are never reused after deletion), and `reachable` whether the
store currently answers queries. -/
structure DB where
  rows : List User
  nextId : Nat
  usedIds : List Nat
  reachable : Bool
deriving Repr, DecidableEq

/-- The store holding no rows, with the id sequence at its initial
value 1 and the store reachable. -/
def emptyDB : DB := ⟨[], 1, [], true⟩

/-- The closed set of domain error kinds of the spec's error taxonomy. -/
inductive DomainError where
  | validationError
  | conflict
  | notFound
  | unavailable
  | unclassified
deriving Repr, DecidableEq

/-- Result of a Data Access Layer call: the domain result or error, the
store state afterwards, and whether the store was contacted at all
(instrumentation for the fail-fast validation requirement). -/
structure DalResult (α : Type) where
  result : Except DomainError α
  db : DB
  storeContacted : Bool
deriving Repr

/-- Insert a user into a list in `id` order (helper for the store's
`ORDER BY id ASC`). -/
def insertById (u : User) : List User → List User
  | [] => [u]
  | v :: vs => if u.id ≤ v.id then u :: v :: vs else v :: insertById u vs

/-- Sort rows by ascending `id`, as the store's `ORDER BY id ASC` does. -/
def sortById : List User → List User
  | [] => []
  | u :: us => insertById u (sortById us)

/-- Modelled from the spec: `listUsers` returns all rows ordered by
ascending `id`; it never fails merely because there are no rows
(`backend/server.js` is not under `src/`). -/
def listUsers (db : DB) : DalResult (List User) :=
  if db.reachable then ⟨.ok (sortById db.rows), db, true⟩
  else ⟨.error .unavailable, db, true⟩

/-- Modelled from the spec: `getUser(id)` returns the row with that id
or `NotFound` (`backend/server.js` is not under `src/`). -/
def getUser (db : DB) (id : Nat) : DalResult User :=
  if db.reachable then
    match db.rows.find? (fun u => u.id == id) with
    | some u => ⟨.ok u, db, true⟩
    | none => ⟨.error .notFound, db, true⟩
  else ⟨.error .unavailable, db, true⟩

/-- Modelled from the spec: `createUser(name, email)` validates the
fields before the store is even contacted (fail fast), fails with
`Conflict` when the email already exists, and otherwise inserts a row
whose `id` and `created_at` the store assigns (`backend/server.js` is
not under `src/`).  `now` is the store clock at insertion. -/
def createUser (db : DB) (name email : String) (now : Nat) : DalResult User :=
  if name.isEmpty || email.isEmpty then ⟨.error .validationError, db, false⟩
  else if db.reachable then
    if db.rows.any (fun u => u.email == email) then ⟨.error .conflict, db, true⟩
    else
      ⟨.ok ⟨db.nextId, name, email, now⟩,
        ⟨db.rows ++ [⟨db.nextId, name, email, now⟩], db.nextId + 1,
         db.usedIds ++ [db.nextId], db.reachable⟩,
        true⟩
  else ⟨.error .unavailable, db, true⟩

/-- Modelled from the spec: `updateUser(id, name, email)` validates the
fields first (fail fast, without contacting the store), fails `NotFound`
when no row has that id, fails `Conflict` when the new email collides
with a *different* existing row, and otherwise replaces `name`/`email`
leaving `id` and `created_at` untouched (`backend/server.js` is not
under `src/`). -/
def updateUser (db : DB) (id : Nat) (name email : String) : DalResult User :=
  if name.isEmpty || email.isEmpty then ⟨.error .validationError, db, false⟩
  else if db.reachable then
    match db.rows.find? (fun u => u.id == id) with
    | none => ⟨.error .notFound, db, true⟩
    | some u =>
      if db.rows.any (fun v => v.email == email && v.id != id) then
        ⟨.error .conflict, db, true⟩
      else
        ⟨.ok ⟨u.id, name, email, u.created_at⟩,
          ⟨db.rows.map
             (fun v => if v.id == id then ⟨u.id, name, email, u.created_at⟩ else v),
           db.nextId, db.usedIds, db.reachable⟩,
          true⟩
  else ⟨.error .unavailable, db, true⟩

/-- Modelled from the spec: `deleteUser(id)` removes the row with that
id, failing `NotFound` when no row is affected (`backend/server.js` is
not under `src/`). -/
def deleteUser (db : DB) (id : Nat) : DalResult Unit :=
  if db.reachable then
    if db.rows.any (fun u => u.id == id) then
      ⟨.ok (),
        ⟨db.rows.filter (fun u => u.id != id), db.nextId, db.usedIds, db.reachable⟩,
        true⟩
    else ⟨.error .notFound, db, true⟩
  else ⟨.error .unavailable, db, true⟩

/-- Outcome of the health probe: the closed set `Ok | Unavailable`. -/
inductive Health where
  | ok
  | unavailable
deriving Repr, DecidableEq

/-- Modelled from the spec: `healthCheck` runs a trivial round-trip
query and reports `Ok` or `Unavailable`; it never throws
(`backend/server.js` is not under `src/`). -/
def healthCheck (db : DB) : Health :=
  if db.reachable then .ok else .unavailable

/-! ### Request Handler Layer -/

/-- The JSON request body of a Create/Update call: each field may be
absent. -/
structure Body where
  name : Option String
  email : Option String
deriving Repr, DecidableEq

/-- The JSON bodies the service can answer with. -/
inductive RespBody where
  | userBody (u : User)
  | userListBody (us : List User)
  | errorBody (msg : String)
  | messageBody (msg : String)
  | healthBody (status message : String)
deriving Repr, DecidableEq

/-- An HTTP response: status code and JSON body. -/
structure HttpResponse where
  status : Nat
  body : RespBody
deriving Repr, DecidableEq

/-- Modelled from the spec: the uniform domain-error-to-HTTP-status
mapping of the Request Handler Layer. -/
def errStatus : DomainError → Nat
  | .validationError => 400
  | .conflict => 409
  | .notFound => 404
  | .unavailable => 503
  | .unclassified => 500

/-- Modelled from the spec: the `{error: <message>}` text for each
domain error kind. -/
def errMessage : DomainError → String
  | .validationError => "Name and email are required"
  | .conflict => "Email already exists"
  | .notFound => "User not found"
  | .unavailable => "Service unavailable"
  | .unclassified => "Internal server error"

/-- Numeric value of a digit string (helper for the `:id` parser). -/
def digitsVal (cs : List Char) : Nat :=
  cs.foldl (fun n c => n * 10 + (c.toNat - 48)) 0

/-- Modelled from the spec: a `:id` path segment must parse as a
positive integer; anything else is `none` and is treated as `NotFound`
by the handlers. -/
def parsePositiveId (s : String) : Option Nat :=
  if s.data ≠ [] ∧ s.data.all (fun c => 48 ≤ c.toNat && c.toNat ≤ 57) then
    (if 0 < digitsVal s.data then some (digitsVal s.data) else none)
  else none

/-- Shape validation shared by Create and Update: the body must carry
non-empty `name` and `email` strings. -/
def validBody (b : Body) : Option (String × String) :=
  match b.name, b.email with
  | some n, some e => if n.isEmpty || e.isEmpty then none else some (n, e)
  | _, _ => none

/-- Serialize a domain error through the uniform mapping. -/
def errResponse (e : DomainError) : HttpResponse :=
  ⟨errStatus e, .errorBody (errMessage e)⟩

/-- Modelled from the spec: `GET /api/health`
(`backend/server.js` is not under `src/`). -/
def handleHealth (db : DB) : HttpResponse :=
  match healthCheck db with
  | .ok => ⟨200, .healthBody "OK" "Server is running"⟩
  | .unavailable => errResponse .unavailable

/-- Modelled from the spec: `GET /api/users`
(`backend/server.js` is not under `src/`). -/
def handleList (db : DB) : HttpResponse × DB :=
  let r := listUsers db
  match r.result with
  | .ok us => (⟨200, .userListBody us⟩, r.db)
  | .error e => (errResponse e, r.db)

/-- Modelled from the spec: `GET /api/users/:id`; a `:id` that does not
parse as a positive integer is treated as `NotFound`
(`backend/server.js` is not under `src/`). -/
def handleGet (db : DB) (idSeg : String) : HttpResponse × DB :=
  match parsePositiveId idSeg with
  | none => (errResponse .notFound, db)
  | some id =>
    let r := getUser db id
    match r.result with
    | .ok u => (⟨200, .userBody u⟩, r.db)
    | .error e => (errResponse e, r.db)

/-- Modelled from the spec: `POST /api/users`; the handler validates the
body shape before calling the Data Access Layer (defense in depth), so
an invalid body never contacts the store.  The third component records
whether the store was contacted (`backend/server.js` is not under
`src/`). -/
def handleCreate (db : DB) (b : Body) (now : Nat) : HttpResponse × DB × Bool :=
  match validBody b with
  | none => (errResponse .validationError, db, false)
  | some (n, e) =>
    let r := createUser db n e now
    match r.result with
    | .ok u => (⟨201, .userBody u⟩, r.db, r.storeContacted)
    | .error err => (errResponse err, r.db, r.storeContacted)

/-- Modelled from the spec: `PUT /api/users/:id`; body-shape validation
happens first (fail fast, without contacting the store), then a `:id`
that does not parse as a positive integer is treated as `NotFound`
(`backend/server.js` is not under `src/`). -/
def handleUpdate (db : DB) (idSeg : String) (b : Body) : HttpResponse × DB × Bool :=
  match validBody b with
  | none => (errResponse .validationError, db, false)
  | some (n, e) =>
    match parsePositiveId idSeg with
    | none => (errResponse .notFound, db, false)
    | some id =>
      let r := updateUser db id n e
      match r.result with
      | .ok u => (⟨200, .userBody u⟩, r.db, r.storeContacted)
      | .error err => (errResponse err, r.db, r.storeContacted)

/-- Modelled from the spec: `DELETE /api/users/:id`
(`backend/server.js` is not under `src/`). -/
def handleDelete (db : DB) (idSeg : String) : HttpResponse × DB :=
  match parsePositiveId idSeg with
  | none => (errResponse .notFound, db)
  | some id =>
    let r := deleteUser db id
    match r.result with
    | .ok _ => (⟨200, .messageBody "User deleted successfully"⟩, r.db)
    | .error e => (errResponse e, r.db)

/-! ### Connection pool -/

/-- Modelled from the spec: the bounded connection pool of the Data
Access Layer (`backend/db.js` is not under `src/`): a fixed maximum
number of concurrently open connections and the number currently in
use. -/
structure Pool where
  maxConns : Nat
  inUse : Nat
deriving Repr, DecidableEq

/-- The pool's events: a request acquires a connection and later
releases it back. -/
inductive PoolEvent where
  | acquire
  | release
deriving Repr, DecidableEq

/-- Modelled from the spec: one pool transition.  An `acquire` on a
full pool is not enabled (`none`): the requester waits for a free
connection instead of opening a new one beyond the bound. -/
def poolStep (p : Pool) : PoolEvent → Option Pool
  | .acquire =>
    if p.inUse < p.maxConns then some ⟨p.maxConns, p.inUse + 1⟩ else none
  | .release =>
    if 0 < p.inUse then some ⟨p.maxConns, p.inUse - 1⟩ else none

/-- Run a sequence of pool events; `none` when some event was not
enabled at its turn. -/
def runPool (p : Pool) : List PoolEvent → Option Pool
  | [] => some p
  | ev :: evs =>
    match poolStep p ev with
    | some p' => runPool p' evs
    | none => none

/-- Modelled from the spec: every Data Access Layer operation brackets
its store work between an acquire and an unconditional release, so the
connection is returned on every exit path — success and domain error
alike. -/
def withConn {α : Type} (p : Pool) (q : DB → Except DomainError α × DB)
    (db : DB) : Option (Except DomainError α × DB × Pool) :=
  match poolStep p .acquire with
  | none => none
  | some p₁ =>
    let r := q db
    match poolStep p₁ .release with
    | none => none
    | some p₂ => some (r.1, r.2, p₂)

/-! ### Browser client (`frontend/src/App.js`) -/

/-- The controlled form state of the React component:
`useState({ name: '', email: '' })`. -/
structure FormData where
  name : String
  email : String
deriving Repr, DecidableEq

/-- The component state `handleSubmit` reads: the form fields and
`editingId` (`useState(null)`, set to a user's id by `handleEdit`). -/
structure AppState where
  formData : FormData
  editingId : Option Nat
deriving Repr, DecidableEq

/-- JavaScript truthiness of the `editingId` value as used in
`editingId ? ... : ...`: `null` and `0` are falsy, every other number
is truthy. -/
def truthyId : Option Nat → Bool
  | none => false
  | some n => n != 0

/-- The HTTP request `handleSubmit` issues: method, url, and the JSON
body `JSON.stringify(formData)`. -/
structure SubmitRequest where
  method : String
  url : String
  body : FormData
deriving Repr, DecidableEq

/-- The fetch call of `handleSubmit` (App.js lines 35-45): url and
method chosen by the truthiness of `editingId`, body always the
current form data. -/
def submitRequest (apiUrl : String) (s : AppState) : SubmitRequest :=
  if truthyId s.editingId then
    ⟨"PUT", apiUrl ++ "/users/" ++ toString (s.editingId.getD 0), s.formData⟩
  else
    ⟨"POST", apiUrl ++ "/users", s.formData⟩

/-- What `handleSubmit` leaves behind: the component state, whether
`fetchUsers()` was called again, and whether the error alert fired. -/
structure SubmitOutcome where
  state : AppState
  refetched : Bool
  alerted : Bool
deriving Repr, DecidableEq

/-- The state effect of `handleSubmit` (App.js lines 47-57): on an ok
response the form is cleared, `editingId` reset to `null` and the list
re-fetched; on a non-ok response the thrown error is caught by the
alert and the state is left untouched. -/
def handleSubmit (s : AppState) (respOk : Bool) : SubmitOutcome :=
  if respOk then ⟨⟨⟨"", ""⟩, none⟩, true, false⟩
  else ⟨s, false, true⟩

/-! ### Store invariant -/

/-- Well-formedness of a store state: every row's id was handed out by
the sequence, every handed-out id is below the sequence's next value,
and row ids are pairwise distinct (primary key). -/
def DB.wf (db : DB) : Prop :=
  (∀ u ∈ db.rows, u.id ∈ db.usedIds) ∧
  (∀ i ∈ db.usedIds, i < db.nextId) ∧
  (db.rows.map User.id).Nodup

theorem emptyDB_wf : emptyDB.wf := by
  refine ⟨?_, ?_, ?_⟩ <;> simp [emptyDB]

/-! ### Sorting lemmas -/

theorem insertById_perm (u : User) (l : List User) :
    (insertById u l).Perm (u :: l) := by
  induction l with
  | nil => simp [insertById]
  | cons v vs ih =>
    simp only [insertById]
    split
    · exact List.Perm.refl _
    · exact (ih.cons v).trans (List.Perm.swap u v vs)

theorem mem_insertById {a u : User} {l : List User} :
    a ∈ insertById u l ↔ a = u ∨ a ∈ l := by
  rw [(insertById_perm u l).mem_iff]
  simp

theorem sortById_perm (l : List User) : (sortById l).Perm l := by
  induction l with
  | nil => simp [sortById]
  | cons u us ih => exact (insertById_perm u (sortById us)).trans (ih.cons u)

theorem insertById_pairwise {u : User} {l : List User}
    (h : l.Pairwise (fun a b => a.id ≤ b.id)) :
    (insertById u l).Pairwise (fun a b => a.id ≤ b.id) := by
  induction l with
  | nil => simp [insertById]
  | cons v vs ih =>
    rcases List.pairwise_cons.mp h with ⟨hv, hvs⟩
    by_cases hle : u.id ≤ v.id
    · simp only [insertById, if_pos hle]
      refine List.pairwise_cons.mpr ⟨?_, h⟩
      intro w hw
      rcases List.mem_cons.mp hw with rfl | hw
      · exact hle
      · exact le_trans hle (hv w hw)
    · simp only [insertById, if_neg hle]
      refine List.pairwise_cons.mpr ⟨?_, ih hvs⟩
      intro w hw
      rcases mem_insertById.mp hw with rfl | hw
      · omega
      · exact hv w hw

theorem sortById_pairwise (l : List User) :
    (sortById l).Pairwise (fun a b => a.id ≤ b.id) := by
  induction l with
  | nil => simp [sortById]
  | cons u us ih => exact insertById_pairwise ih

theorem sortById_strict {l : List User} (h : (l.map User.id).Nodup) :
    (sortById l).Pairwise (fun a b => a.id < b.id) := by
  have hnd : ((sortById l).map User.id).Nodup := by
    have := (sortById_perm l).map User.id
    exact (this.nodup_iff).mpr h
  have hne : (sortById l).Pairwise (fun a b => a.id ≠ b.id) :=
    List.pairwise_map.mp hnd
  exact ((sortById_pairwise l).and hne).imp (fun h => lt_of_le_of_ne h.1 h.2)

/-! ### Row-count and lookup lemmas -/

theorem length_filter_ne {l : List User} {id : Nat}
    (hnd : (l.map User.id).Nodup) (hmem : ∃ u ∈ l, u.id = id) :
    (l.filter (fun v => v.id != id)).length + 1 = l.length := by
  induction l with
  | nil => simp at hmem
  | cons u tl ih =>
    simp only [List.map_cons, List.nodup_cons] at hnd
    by_cases hu : u.id = id
    · have htl : ∀ v ∈ tl, (v.id != id) = true := by
        intro v hv
        have hne : v.id ≠ id := by
          intro hveq
          exact hnd.1 (by rw [hu, ← hveq]; exact List.mem_map_of_mem User.id hv)
        simpa [bne_iff_ne] using hne
      have hfu : (u.id != id) = false := by simp [bne_iff_ne, hu]
      rw [List.filter_cons, hfu]
      simp only [Bool.false_eq_true, if_false]
      rw [List.filter_eq_self.mpr htl]
      simp
    · have hfu : (u.id != id) = true := by simpa [bne_iff_ne] using hu
      rw [List.filter_cons, hfu]
      have hmem' : ∃ v ∈ tl, v.id = id := by
        rcases hmem with ⟨v, hv, hid⟩
        rcases List.mem_cons.mp hv with rfl | hvtl
        · exact absurd hid hu
        · exact ⟨v, hvtl, hid⟩
      have := ih hnd.2 hmem'
      simp only [if_true, List.length_cons]
      omega

theorem find?_append_right {p : User → Bool} {l₁ l₂ : List User}
    (h : ∀ a ∈ l₁, p a = false) :
    (l₁ ++ l₂).find? p = l₂.find? p := by
  rw [List.find?_append]
  have : l₁.find? p = none := List.find?_eq_none.mpr (by
    intro x hx
    simp [h x hx])
  rw [this, Option.none_or]

/-! ### Characterizations of the Data Access Layer operations -/

theorem isEmpty_false_of_ne {s : String} (h : s ≠ "") : s.isEmpty = false := by
  cases hse : s.isEmpty
  · rfl
  · exact absurd ((String.isEmpty_iff s).mp hse) h

theorem valid_fields_false {n e : String} (hn : n ≠ "") (he : e ≠ "") :
    (n.isEmpty || e.isEmpty) = false := by
  rw [isEmpty_false_of_ne hn, isEmpty_false_of_ne he]
  rfl

theorem createUser_success {db : DB} {n e : String} {now : Nat}
    (hr : db.reachable = true) (hn : n ≠ "") (he : e ≠ "")
    (hfresh : ∀ u ∈ db.rows, u.email ≠ e) :
    createUser db n e now =
      ⟨.ok ⟨db.nextId, n, e, now⟩,
       ⟨db.rows ++ [⟨db.nextId, n, e, now⟩], db.nextId + 1,
        db.usedIds ++ [db.nextId], db.reachable⟩,
       true⟩ := by
  have h2 : db.rows.any (fun u => u.email == e) = false := by
    rw [List.any_eq_false]
    intro u hu
    simp only [beq_iff_eq]
    exact hfresh u hu
  unfold createUser
  rw [valid_fields_false hn he, h2, hr]
  simp

theorem createUser_conflict {db : DB} {n e : String} {now : Nat}
    (hr : db.reachable = true) (hn : n ≠ "") (he : e ≠ "")
    (hdup : ∃ u ∈ db.rows, u.email = e) :
    createUser db n e now = ⟨.error .conflict, db, true⟩ := by
  have h2 : db.rows.any (fun u => u.email == e) = true := by
    rw [List.any_eq_true]
    rcases hdup with ⟨u, hu, heq⟩
    exact ⟨u, hu, by simp [beq_iff_eq, heq]⟩
  unfold createUser
  rw [valid_fields_false hn he, h2, hr]
  simp

theorem createUser_wf {db : DB} (hwf : db.wf) (n e : String) (now : Nat) :
    (createUser db n e now).db.wf := by
  unfold createUser
  split
  · exact hwf
  · split
    · split
      · exact hwf
      · rcases hwf with ⟨h1, h2, h3⟩
        refine ⟨?_, ?_, ?_⟩
        · intro u hu
          simp only [List.mem_append, List.mem_singleton] at hu ⊢
          rcases hu with h | h
          · exact Or.inl (h1 u h)
          · subst h; exact Or.inr rfl
        · intro i hi
          simp only [List.mem_append, List.mem_singleton] at hi
          rcases hi with h | h
          · exact Nat.lt_succ_of_lt (h2 i h)
          · subst h; exact Nat.lt_succ_self _
        · simp only [List.map_append, List.map_cons, List.map_nil]
          rw [List.nodup_append]
          refine ⟨h3, by simp, ?_⟩
          intro a ha hb
          simp only [List.mem_singleton] at hb
          subst hb
          rcases List.mem_map.mp ha with ⟨u, hu, hid⟩
          have hlt := h2 u.id (h1 u hu)
          simp only at hlt
          omega
    · exact hwf

theorem updateUser_wf {db : DB} (hwf : db.wf) (id : Nat) (n e : String) :
    (updateUser db id n e).db.wf := by
  unfold updateUser
  split
  · exact hwf
  · split
    · rcases hfind : db.rows.find? (fun u => u.id == id) with _ | u
      · simp [hfind]; exact hwf
      · simp only [hfind]
        split
        · exact hwf
        · rcases hwf with ⟨h1, h2, h3⟩
          have huid : u.id = id := by
            have := List.find?_some hfind
            simpa [beq_iff_eq] using this
          have hmap : (db.rows.map
              (fun v => if v.id == id then (⟨u.id, n, e, u.created_at⟩ : User) else v)).map User.id
              = db.rows.map User.id := by
            rw [List.map_map]
            refine List.map_congr_left ?_
            intro v _
            by_cases hv : v.id = id
            · simp [Function.comp, hv, huid]
            · simp [Function.comp, beq_iff_eq, hv]
          refine ⟨?_, h2, ?_⟩
          · intro w hw
            simp only at hw ⊢
            rcases List.mem_map.mp hw with ⟨v, hv, hveq⟩
            by_cases hvid : v.id = id
            · have : w = ⟨u.id, n, e, u.created_at⟩ := by
                rw [← hveq]; simp [beq_iff_eq, hvid]
              rw [this]
              exact h1 u (List.mem_of_find?_eq_some hfind)
            · have : w = v := by rw [← hveq]; simp [beq_iff_eq, hvid]
              rw [this]
              exact h1 v hv
          · simp only
            rw [hmap]
            exact h3
    · exact hwf

theorem getUser_db_eq (db : DB) (id : Nat) : (getUser db id).db = db := by
  unfold getUser
  split
  · split <;> rfl
  · rfl

theorem deleteUser_wf {db : DB} (hwf : db.wf) (id : Nat) :
    (deleteUser db id).db.wf := by
  unfold deleteUser
  split
  · split
    · rcases hwf with ⟨h1, h2, h3⟩
      refine ⟨?_, h2, ?_⟩
      · intro u hu
        simp only at hu ⊢
        exact h1 u (List.mem_of_mem_filter hu)
      · simp only
        have hsub : List.Sublist
            ((db.rows.filter (fun u => u.id != id)).map User.id)
            (db.rows.map User.id) :=
          (List.filter_sublist db.rows).map User.id
        exact h3.sublist hsub
    · exact hwf
  · exact hwf

/-! ### Operation traces (for the create/delete counting property) -/

/-- A client-visible store operation, as issued over the API. -/
inductive Op where
  | createOp (name email : String) (now : Nat)
  | updateOp (id : Nat) (name email : String)
  | deleteOp (id : Nat)
  | getOp (id : Nat)

/-- The store state after one operation. -/
def applyOp (db : DB) : Op → DB
  | .createOp n e now => (createUser db n e now).db
  | .updateOp id n e => (updateUser db id n e).db
  | .deleteOp id => (deleteUser db id).db
  | .getOp id => (getUser db id).db

/-- Whether the operation is a create that succeeded on this state. -/
def opCreateSucceeds (db : DB) : Op → Bool
  | .createOp n e now =>
    match (createUser db n e now).result with
    | .ok _ => true
    | .error _ => false
  | _ => false

/-- Whether the operation is a delete that succeeded on this state. -/
def opDeleteSucceeds (db : DB) : Op → Bool
  | .deleteOp id =>
    match (deleteUser db id).result with
    | .ok _ => true
    | .error _ => false
  | _ => false

/-- Run a sequence of operations against the store. -/
def runOps (db : DB) : List Op → DB
  | [] => db
  | op :: ops => runOps (applyOp db op) ops

/-- Number of successful creates along a run. -/
def countCreates (db : DB) : List Op → Nat
  | [] => 0
  | op :: ops =>
    (if opCreateSucceeds db op then 1 else 0) + countCreates (applyOp db op) ops

/-- Number of successful deletes along a run. -/
def countDeletes (db : DB) : List Op → Nat
  | [] => 0
  | op :: ops =>
    (if opDeleteSucceeds db op then 1 else 0) + countDeletes (applyOp db op) ops

theorem applyOp_wf {db : DB} (hwf : db.wf) (op : Op) : (applyOp db op).wf := by
  cases op with
  | createOp n e now => exact createUser_wf hwf n e now
  | updateOp id n e => exact updateUser_wf hwf id n e
  | deleteOp id => exact deleteUser_wf hwf id
  | getOp id => rw [applyOp, getUser_db_eq]; exact hwf

theorem applyOp_length {db : DB} (hwf : db.wf) (op : Op) :
    (applyOp db op).rows.length + (if opDeleteSucceeds db op then 1 else 0)
      = db.rows.length + (if opCreateSucceeds db op then 1 else 0) := by
  cases op with
  | createOp n e now =>
    simp only [applyOp, opCreateSucceeds, opDeleteSucceeds]
    unfold createUser
    split
    · simp
    · split
      · split
        · simp
        · simp
      · simp
  | updateOp id n e =>
    simp only [applyOp, opCreateSucceeds, opDeleteSucceeds]
    unfold updateUser
    split
    · simp
    · split
      · rcases hfind : db.rows.find? (fun u => u.id == id) with _ | u
        · simp [hfind]
        · simp only [hfind]
          split
          · simp
          · simp
      · simp
  | deleteOp id =>
    simp only [applyOp, opCreateSucceeds, opDeleteSucceeds]
    unfold deleteUser
    split
    · rcases hany : db.rows.any (fun u => u.id == id) with _ | _
      · simp
      · simp only [if_true]
        have hmem : ∃ u ∈ db.rows, u.id = id := by
          rcases List.any_eq_true.mp hany with ⟨u, hu, hp⟩
          exact ⟨u, hu, by simpa [beq_iff_eq] using hp⟩
        have := length_filter_ne hwf.2.2 hmem
        simpa using this
    · simp
  | getOp id =>
    simp only [applyOp, opCreateSucceeds, opDeleteSucceeds, getUser_db_eq]

theorem applyOp_reachable (db : DB) (op : Op) :
    (applyOp db op).reachable = db.reachable := by
  cases op with
  | createOp n e now =>
    simp only [applyOp]
    unfold createUser
    split
    · rfl
    · split
      · split <;> rfl
      · rfl
  | updateOp id n e =>
    simp only [applyOp]
    unfold updateUser
    split
    · rfl
    · split
      · rcases hfind : db.rows.find? (fun u => u.id == id) with _ | u
        · simp [hfind]
        · simp only [hfind]
          split <;> rfl
      · rfl
  | deleteOp id =>
    simp only [applyOp]
    unfold deleteUser
    split
    · split <;> rfl
    · rfl
  | getOp id => rw [applyOp, getUser_db_eq]

theorem runOps_wf {db : DB} (hwf : db.wf) (ops : List Op) : (runOps db ops).wf := by
  induction ops generalizing db with
  | nil => exact hwf
  | cons op ops ih => exact ih (applyOp_wf hwf op)

theorem runOps_reachable (db : DB) (ops : List Op) :
    (runOps db ops).reachable = db.reachable := by
  induction ops generalizing db with
  | nil => rfl
  | cons op ops ih => rw [runOps, ih, applyOp_reachable]

theorem runOps_length {db : DB} (hwf : db.wf) (ops : List Op) :
    (runOps db ops).rows.length + countDeletes db ops
      = db.rows.length + countCreates db ops := by
  induction ops generalizing db with
  | nil => simp [runOps, countDeletes, countCreates]
  | cons op ops ih =>
    have h1 := applyOp_length hwf op
    have h2 := ih (applyOp_wf hwf op)
    simp only [runOps, countDeletes, countCreates]
    omega

/-! ### Pool trace invariant -/

theorem runPool_bound {p p' : Pool} {evs : List PoolEvent}
    (hinv : p.inUse ≤ p.maxConns) (h : runPool p evs = some p') :
    p'.inUse ≤ p'.maxConns := by
  induction evs generalizing p with
  | nil =>
    simp only [runPool, Option.some_inj] at h
    subst h
    exact hinv
  | cons ev evs ih =>
    simp only [runPool] at h
    rcases hstep : poolStep p ev with _ | p₁
    · rw [hstep] at h
      cases h
    · rw [hstep] at h
      have hinv1 : p₁.inUse ≤ p₁.maxConns := by
        cases ev with
        | acquire =>
          simp only [poolStep] at hstep
          split at hstep
          · cases hstep
            simpa using by omega
          · cases hstep
        | release =>
          simp only [poolStep] at hstep
          split at hstep
          · cases hstep
            simpa using by omega
          · cases hstep
      exact ih hinv1 h

/-! ### Claim theorems -/

/-- C6: `GET /api/health` answers 200 with body exactly
`{"status":"OK","message":"Server is running"}` whenever the store is
reachable and 503 whenever it is not, and `healthCheck`'s only possible
outcomes are `Ok` and `Unavailable` (it never throws). -/
theorem healthEndpoint_contract (db : DB) :
    (db.reachable = true →
      handleHealth db = ⟨200, .healthBody "OK" "Server is running"⟩) ∧
    (db.reachable = false → (handleHealth db).status = 503) ∧
    (healthCheck db = .ok ∨ healthCheck db = .unavailable) := by
  refine ⟨?_, ?_, ?_⟩
  · intro h
    simp [handleHealth, healthCheck, h]
  · intro h
    simp [handleHealth, healthCheck, h, errResponse, errStatus]
  · cases hc : healthCheck db
    · exact Or.inl rfl
    · exact Or.inr rfl

theorem healthEndpoint_contract_witness :
    handleHealth ⟨[], 1, [], true⟩ = ⟨200, .healthBody "OK" "Server is running"⟩ ∧
    (handleHealth ⟨[], 1, [], false⟩).status = 503 :=
  ⟨(healthEndpoint_contract ⟨[], 1, [], true⟩).1 rfl,
   (healthEndpoint_contract ⟨[], 1, [], false⟩).2.1 rfl⟩

/-- C9: starting from an idle pool, no accepted sequence of
acquire/release events ever takes the number of in-use connections past
the configured maximum; an acquire on a full pool is not enabled (the
requester waits); and an operation bracketed by `withConn` hands its
connection back on every exit path, leaving the pool exactly as it
found it. -/
theorem pool_discipline :
    (∀ (maxConns : Nat) (evs : List PoolEvent) (p' : Pool),
      runPool ⟨maxConns, 0⟩ evs = some p' → p'.inUse ≤ p'.maxConns) ∧
    (∀ p : Pool, p.inUse = p.maxConns → poolStep p .acquire = none) ∧
    (∀ (α : Type) (p : Pool) (q : DB → Except DomainError α × DB) (db : DB),
      p.inUse < p.maxConns →
      withConn p q db = some ((q db).1, (q db).2, p)) := by
  refine ⟨?_, ?_, ?_⟩
  · intro maxConns evs p' h
    exact runPool_bound (by simp) h
  · intro p h
    simp [poolStep, h]
  · intro α p q db h
    simp [withConn, poolStep, h]

theorem pool_discipline_witness :
    withConn (⟨10, 3⟩ : Pool) (fun db => (Except.error DomainError.conflict, db))
        emptyDB
      = some ((Except.error DomainError.conflict : Except DomainError Unit),
              emptyDB, ⟨10, 3⟩) :=
  pool_discipline.2.2 Unit ⟨10, 3⟩ (fun db => (Except.error DomainError.conflict, db))
    emptyDB (by decide)

/-- C8 as stated is refuted: a `PUT` whose `:id` does not parse but
whose body is also invalid is answered 400 (body validation happens
first), not 404 — still a client error, never a 5xx. -/
theorem badId_claim_cex :
    parsePositiveId "abc" = none ∧
    (handleUpdate emptyDB "abc" ⟨some "", some "x@y.io"⟩).1.status = 400 ∧
    (handleUpdate emptyDB "abc" ⟨some "", some "x@y.io"⟩).1.status ≠ 404 := by
  refine ⟨by decide, by decide, by decide⟩

/-- C8 (amended): for every GET or DELETE whose `:id` does not parse as
a positive integer the handler answers 404; a PUT answers 404 when its
body is valid and 400 (validation first) when the body is also invalid;
in every case the status is a 4xx client error, never a 5xx. -/
theorem badId_notFound (db : DB) (idSeg : String) (b : Body)
    (hbad : parsePositiveId idSeg = none) :
    (handleGet db idSeg).1.status = 404 ∧
    (handleDelete db idSeg).1.status = 404 ∧
    (validBody b ≠ none → (handleUpdate db idSeg b).1.status = 404) ∧
    (validBody b = none → (handleUpdate db idSeg b).1.status = 400) ∧
    (400 ≤ (handleUpdate db idSeg b).1.status ∧
      (handleUpdate db idSeg b).1.status < 500) := by
  have hget : (handleGet db idSeg).1.status = 404 := by
    simp [handleGet, hbad, errResponse, errStatus]
  have hdel : (handleDelete db idSeg).1.status = 404 := by
    simp [handleDelete, hbad, errResponse, errStatus]
  refine ⟨hget, hdel, ?_, ?_, ?_⟩
  · intro hvb
    rcases hv : validBody b with _ | p
    · exact absurd hv hvb
    · simp [handleUpdate, hv, hbad, errResponse, errStatus]
  · intro hvb
    simp [handleUpdate, hvb, errResponse, errStatus]
  · rcases hv : validBody b with _ | p
    · simp [handleUpdate, hv, errResponse, errStatus]
    · simp [handleUpdate, hv, hbad, errResponse, errStatus]

theorem badId_notFound_witness :
    (handleGet emptyDB "xyz").1.status = 404 ∧
    (handleDelete emptyDB "xyz").1.status = 404 :=
  ⟨(badId_notFound emptyDB "xyz" ⟨some "A", some "a@x.io"⟩ (by decide)).1,
   (badId_notFound emptyDB "xyz" ⟨some "A", some "a@x.io"⟩ (by decide)).2.1⟩

/-- C2: every create or update request whose body lacks `name`, lacks
`email`, or carries either as the empty string is answered
400 `{error: <message>}`, the store is never contacted, and the store
state is unchanged. -/
theorem invalid_body_rejected (db : DB) (b : Body) (now : Nat) (idSeg : String)
    (hbad : b.name = none ∨ b.email = none ∨
            b.name = some "" ∨ b.email = some "") :
    (handleCreate db b now).1 = ⟨400, .errorBody (errMessage .validationError)⟩ ∧
    (handleCreate db b now).2.1 = db ∧
    (handleCreate db b now).2.2 = false ∧
    (handleUpdate db idSeg b).1 = ⟨400, .errorBody (errMessage .validationError)⟩ ∧
    (handleUpdate db idSeg b).2.1 = db ∧
    (handleUpdate db idSeg b).2.2 = false := by
  have hvb : validBody b = none := by
    rcases b with ⟨bn, be⟩
    simp only at hbad
    rcases bn with _ | n <;> rcases be with _ | e <;>
      rcases hbad with h | h | h | h <;>
      simp_all [validBody, String.isEmpty_iff]
  refine ⟨?_, ?_, ?_, ?_, ?_, ?_⟩ <;>
    simp [handleCreate, handleUpdate, hvb, errResponse, errStatus]

theorem invalid_body_rejected_witness :
    (handleCreate emptyDB ⟨some "No Email", none⟩ 0).1
      = ⟨400, .errorBody (errMessage .validationError)⟩ ∧
    (handleCreate emptyDB ⟨some "No Email", none⟩ 0).2.2 = false :=
  ⟨(invalid_body_rejected emptyDB ⟨some "No Email", none⟩ 0 "1"
      (Or.inr (Or.inl rfl))).1,
   (invalid_body_rejected emptyDB ⟨some "No Email", none⟩ 0 "1"
      (Or.inr (Or.inl rfl))).2.2.1⟩

/-- C10 as stated is refuted: `editingId ? PUT : POST` tests JavaScript
truthiness, so with `editingId = 0` — which is not `null` — the code
issues POST, not PUT. -/
theorem submit_claim_cex :
    (⟨⟨"Ann", "ann@x.io"⟩, some 0⟩ : AppState).editingId ≠ none ∧
    (submitRequest "/api" ⟨⟨"Ann", "ann@x.io"⟩, some 0⟩).method = "POST" ∧
    (submitRequest "/api" ⟨⟨"Ann", "ann@x.io"⟩, some 0⟩).method ≠ "PUT" := by
  refine ⟨by decide, by decide, by decide⟩

/-- C10 (amended): `handleSubmit` issues POST `/users` when `editingId`
is `null` or the falsy id `0`, and PUT `/users/:editingId` when
`editingId` is a non-zero id; the request body is exactly the form's
`{name, email}`; and exactly when the response is ok the form is
cleared, `editingId` reset to `null`, and the user list re-fetched —
on a non-ok response the state is left unchanged and no re-fetch
happens. -/
theorem handleSubmit_contract (apiUrl : String) (s : AppState) (respOk : Bool) :
    (s.editingId = none ∨ s.editingId = some 0 →
      (submitRequest apiUrl s).method = "POST" ∧
      (submitRequest apiUrl s).url = apiUrl ++ "/users") ∧
    (∀ n : Nat, s.editingId = some n → n ≠ 0 →
      (submitRequest apiUrl s).method = "PUT" ∧
      (submitRequest apiUrl s).url = apiUrl ++ "/users/" ++ toString n) ∧
    (submitRequest apiUrl s).body = s.formData ∧
    ((handleSubmit s respOk).refetched = true ↔ respOk = true) ∧
    (respOk = true → (handleSubmit s respOk).state = ⟨⟨"", ""⟩, none⟩) ∧
    (respOk = false →
      (handleSubmit s respOk).state = s ∧
      (handleSubmit s respOk).refetched = false) := by
  refine ⟨?_, ?_, ?_, ?_, ?_, ?_⟩
  · intro h
    rcases h with h | h <;> simp [submitRequest, truthyId, h]
  · intro n hn hne
    simp [submitRequest, truthyId, hn, hne]
  · unfold submitRequest
    split <;> rfl
  · cases respOk <;> simp [handleSubmit]
  · intro h
    simp [handleSubmit, h]
  · intro h
    simp [handleSubmit, h]

/-- C1 as stated is refuted: with an empty name and an already-present
email, createUser fails fast with ValidationError, not Conflict —
though the store is indeed unchanged. -/
theorem duplicate_email_claim_cex :
    (∃ u ∈ (⟨[⟨1, "Alice", "alice@example.com", 0⟩], 2, [1], true⟩ : DB).rows,
        u.email = "alice@example.com") ∧
    (createUser ⟨[⟨1, "Alice", "alice@example.com", 0⟩], 2, [1], true⟩
        "" "alice@example.com" 5).result = .error .validationError ∧
    (createUser ⟨[⟨1, "Alice", "alice@example.com", 0⟩], 2, [1], true⟩
        "" "alice@example.com" 5).result ≠ .error .conflict := by
  have hres : (createUser ⟨[⟨1, "Alice", "alice@example.com", 0⟩], 2, [1], true⟩
      "" "alice@example.com" 5).result = .error .validationError := rfl
  refine ⟨⟨⟨1, "Alice", "alice@example.com", 0⟩, by decide, rfl⟩, hres, ?_⟩
  rw [hres]
  intro h
  exact DomainError.noConfusion (Except.error.inj h)

/-- C1 (amended): for every pair of non-empty name and email where a
user with that email already exists, createUser returns Conflict,
mapped to HTTP 409 by the handler, and the store is unchanged — in
particular the row count after the call equals the row count before. -/
theorem duplicate_email_conflict (db : DB) (hr : db.reachable = true)
    (n e : String) (hn : n ≠ "") (he : e ≠ "")
    (hdup : ∃ u ∈ db.rows, u.email = e) (now : Nat) :
    (createUser db n e now).result = .error .conflict ∧
    (createUser db n e now).db = db ∧
    (createUser db n e now).db.rows.length = db.rows.length ∧
    (handleCreate db ⟨some n, some e⟩ now).1.status = 409 ∧
    (handleCreate db ⟨some n, some e⟩ now).2.1 = db := by
  have hc := @createUser_conflict db n e now hr hn he hdup
  have hvb : validBody ⟨some n, some e⟩ = some (n, e) := by
    simp [validBody, valid_fields_false hn he]
  refine ⟨by rw [hc], by rw [hc], by rw [hc], ?_, ?_⟩
  · simp [handleCreate, hvb, hc, errResponse, errStatus]
  · simp [handleCreate, hvb, hc]

theorem duplicate_email_conflict_witness :
    (createUser ⟨[⟨1, "Alice", "alice@example.com", 0⟩], 2, [1], true⟩
        "Alice Again" "alice@example.com" 5).result = .error .conflict :=
  (duplicate_email_conflict ⟨[⟨1, "Alice", "alice@example.com", 0⟩], 2, [1], true⟩
    rfl "Alice Again" "alice@example.com" (by decide) (by decide)
    ⟨⟨1, "Alice", "alice@example.com", 0⟩, by decide, rfl⟩ 5).1

/-- C3: for every valid (name, email) whose email is not yet present,
createUser succeeds — the handler answers 201 — with a User whose id
was never handed out before (so it differs from every existing and
every previously used id) and whose created_at is the insertion time,
and an immediate getUser on that id returns that same name and email. -/
theorem create_get_roundtrip (db : DB) (hwf : db.wf) (hr : db.reachable = true)
    (n e : String) (hn : n ≠ "") (he : e ≠ "")
    (hfresh : ∀ u ∈ db.rows, u.email ≠ e) (now : Nat) :
    ∃ u : User,
      (createUser db n e now).result = .ok u ∧
      u.id ∉ db.usedIds ∧
      (∀ v ∈ db.rows, v.id ≠ u.id) ∧
      u.created_at = now ∧ u.name = n ∧ u.email = e ∧
      (getUser (createUser db n e now).db u.id).result = .ok u ∧
      (handleCreate db ⟨some n, some e⟩ now).1.status = 201 := by
  have hc := @createUser_success db n e now hr hn he hfresh
  have hvb : validBody ⟨some n, some e⟩ = some (n, e) := by
    simp [validBody, valid_fields_false hn he]
  refine ⟨⟨db.nextId, n, e, now⟩, by rw [hc], ?_, ?_, rfl, rfl, rfl, ?_, ?_⟩
  · intro hmem
    have := hwf.2.1 db.nextId hmem
    omega
  · intro v hv hveq
    have h1 := hwf.2.1 v.id (hwf.1 v hv)
    simp only at hveq
    omega
  · rw [hc]
    have hall : ∀ a ∈ db.rows, ((fun u => u.id == db.nextId) a) = false := by
      intro a ha
      have := hwf.2.1 a.id (hwf.1 a ha)
      simp only [beq_eq_false_iff_ne, ne_eq]
      omega
    unfold getUser
    simp only [hr, if_true]
    rw [find?_append_right hall]
    simp [List.find?]
  · simp [handleCreate, hvb, hc]

theorem create_get_roundtrip_witness :
    ∃ u : User,
      (createUser emptyDB "Test User" "test@example.com" 9).result = .ok u ∧
      u.id ∉ emptyDB.usedIds ∧
      (∀ v ∈ emptyDB.rows, v.id ≠ u.id) ∧
      u.created_at = 9 ∧ u.name = "Test User" ∧ u.email = "test@example.com" ∧
      (getUser (createUser emptyDB "Test User" "test@example.com" 9).db u.id).result
        = .ok u ∧
      (handleCreate emptyDB ⟨some "Test User", some "test@example.com"⟩ 9).1.status
        = 201 :=
  create_get_roundtrip emptyDB emptyDB_wf rfl "Test User" "test@example.com"
    (by decide) (by decide) (by intro u hu; simp [emptyDB] at hu) 9

theorem deleteUser_success {db : DB} {id : Nat}
    (h : (deleteUser db id).result = .ok ()) :
    db.reachable = true ∧
    (deleteUser db id).db.rows = db.rows.filter (fun u => u.id != id) ∧
    (deleteUser db id).db.reachable = db.reachable := by
  by_cases hre : db.reachable = true
  · by_cases hany : db.rows.any (fun u => u.id == id) = true
    · exact ⟨hre, by simp [deleteUser, hre, hany], by simp [deleteUser, hre, hany]⟩
    · exfalso
      rw [Bool.not_eq_true] at hany
      simp [deleteUser, hre, hany] at h
  · exfalso
    rw [Bool.not_eq_true] at hre
    simp [deleteUser, hre] at h

theorem getUser_notFound {db : DB} {id : Nat}
    (hr : db.reachable = true) (hmiss : ∀ u ∈ db.rows, u.id ≠ id) :
    (getUser db id).result = .error .notFound := by
  have hfind : db.rows.find? (fun u => u.id == id) = none := by
    rw [List.find?_eq_none]
    intro u hu
    simp only [beq_iff_eq]
    exact hmiss u hu
  simp [getUser, hr, hfind]

theorem deleteUser_notFound {db : DB} {id : Nat}
    (hr : db.reachable = true) (hmiss : ∀ u ∈ db.rows, u.id ≠ id) :
    (deleteUser db id).result = .error .notFound := by
  have hany : db.rows.any (fun u => u.id == id) = false := by
    rw [List.any_eq_false]
    intro u hu
    simp only [beq_iff_eq]
    exact hmiss u hu
  simp [deleteUser, hr, hany]

/-- C4: for an id matching no row, getUser, updateUser (given a valid
body) and deleteUser all return NotFound, which the handler maps to
HTTP 404; and after any successful delete the deleted id matches no
row, so an immediate getUser — and a re-issued deleteUser — report
NotFound rather than silent success. -/
theorem missing_id_notFound (db : DB) (hr : db.reachable = true) (id : Nat)
    (hmiss : ∀ u ∈ db.rows, u.id ≠ id)
    (n e : String) (hn : n ≠ "") (he : e ≠ "") :
    (getUser db id).result = .error .notFound ∧
    (updateUser db id n e).result = .error .notFound ∧
    (deleteUser db id).result = .error .notFound ∧
    errStatus .notFound = 404 ∧
    (∀ (db₀ : DB) (i : Nat), (deleteUser db₀ i).result = .ok () →
      (getUser (deleteUser db₀ i).db i).result = .error .notFound ∧
      (deleteUser (deleteUser db₀ i).db i).result = .error .notFound) := by
  have hfind : db.rows.find? (fun u => u.id == id) = none := by
    rw [List.find?_eq_none]
    intro u hu
    simp only [beq_iff_eq]
    exact hmiss u hu
  refine ⟨getUser_notFound hr hmiss, ?_, deleteUser_notFound hr hmiss, rfl, ?_⟩
  · unfold updateUser
    rw [valid_fields_false hn he]
    simp [hr, hfind]
  · intro db₀ i hdel
    rcases deleteUser_success hdel with ⟨hre, hrows, hreach⟩
    have hreach' : (deleteUser db₀ i).db.reachable = true := by rw [hreach, hre]
    have hnone : ∀ u ∈ (deleteUser db₀ i).db.rows, u.id ≠ i := by
      rw [hrows]
      intro u hu
      have := List.of_mem_filter hu
      simpa [bne_iff_ne] using this
    exact ⟨getUser_notFound hreach' hnone, deleteUser_notFound hreach' hnone⟩

theorem missing_id_notFound_witness :
    (getUser emptyDB 9999).result = .error .notFound ∧
    (updateUser emptyDB 9999 "Ghost" "ghost@example.com").result
      = .error .notFound ∧
    (deleteUser emptyDB 9999).result = .error .notFound :=
  ⟨(missing_id_notFound emptyDB rfl 9999 (by intro u hu; simp [emptyDB] at hu)
      "Ghost" "ghost@example.com" (by decide) (by decide)).1,
   (missing_id_notFound emptyDB rfl 9999 (by intro u hu; simp [emptyDB] at hu)
      "Ghost" "ghost@example.com" (by decide) (by decide)).2.1,
   (missing_id_notFound emptyDB rfl 9999 (by intro u hu; simp [emptyDB] at hu)
      "Ghost" "ghost@example.com" (by decide) (by decide)).2.2.1⟩

/-- C5: listUsers of a reachable store always succeeds — an empty table
yields the empty sequence rather than a failure — and returns the rows
sorted by strictly ascending id; and any run of operations from the
empty store leaves exactly (successful creates − successful deletes)
entries in the listing. -/
theorem listUsers_contract (db : DB) (hwf : db.wf) (hr : db.reachable = true)
    (ops : List Op) :
    (db.rows = [] → (listUsers db).result = .ok []) ∧
    (∃ us, (listUsers db).result = .ok us ∧ us.Perm db.rows ∧
      us.Pairwise (fun a b => a.id < b.id)) ∧
    (countDeletes emptyDB ops ≤ countCreates emptyDB ops ∧
      ∃ us, (listUsers (runOps emptyDB ops)).result = .ok us ∧
        us.length = countCreates emptyDB ops - countDeletes emptyDB ops) := by
  have hlen := runOps_length emptyDB_wf ops
  have h0 : emptyDB.rows.length = 0 := rfl
  rw [h0] at hlen
  refine ⟨?_, ?_, ?_, ?_⟩
  · intro h
    simp [listUsers, hr, h, sortById]
  · refine ⟨sortById db.rows, ?_, sortById_perm db.rows, sortById_strict hwf.2.2⟩
    simp [listUsers, hr]
  · omega
  · have hre : (runOps emptyDB ops).reachable = true := by
      rw [runOps_reachable]
      rfl
    refine ⟨sortById (runOps emptyDB ops).rows, ?_, ?_⟩
    · simp [listUsers, hre]
    · rw [(sortById_perm _).length_eq]
      omega

theorem listUsers_contract_witness :
    (listUsers emptyDB).result = .ok [] :=
  (listUsers_contract emptyDB emptyDB_wf rfl []).1 rfl

theorem map_id_update {w : User} {id : Nat} (hw : w.id = id) (l : List User) :
    (l.map (fun v => if v.id == id then w else v)).map User.id = l.map User.id := by
  rw [List.map_map]
  refine List.map_congr_left ?_
  intro v _
  by_cases hv : v.id = id
  · simp [Function.comp, hv, hw]
  · simp [Function.comp, beq_iff_eq, hv]

theorem filter_ne_map_update {w : User} {id : Nat} (hw : w.id = id) (l : List User) :
    (l.map (fun v => if v.id == id then w else v)).filter (fun v => v.id != id)
      = l.filter (fun v => v.id != id) := by
  induction l with
  | nil => rfl
  | cons a as ih =>
    by_cases haid : a.id = id
    · have h1 : ((fun v => if v.id == id then w else v) a) = w := by
        simp [beq_iff_eq, haid]
      have h2 : (w.id != id) = false := by
        rw [hw]
        exact bne_self_eq_false id
      have h3 : (a.id != id) = false := by
        rw [haid]
        exact bne_self_eq_false id
      simp only [List.map_cons, h1, List.filter_cons, h2, h3,
        Bool.false_eq_true, if_false]
      exact ih
    · have h1 : ((fun v => if v.id == id then w else v) a) = a := by
        simp [beq_iff_eq, haid]
      have h3 : (a.id != id) = true := by
        simpa [bne_iff_ne] using haid
      simp only [List.map_cons, h1, List.filter_cons, h3, if_true]
      rw [ih]

/-- C7: a successful updateUser replaces only the name and email of the
row with that id — the row's id and created_at and every other row are
unchanged — and Conflict arises exactly when the row exists and the new
email also belongs to a different existing row; in particular updating
a user to its own current email succeeds. -/
theorem update_frame_and_conflict (db : DB) (hwf : db.wf) (hr : db.reachable = true)
    (id : Nat) (n e : String) (hn : n ≠ "") (he : e ≠ "") :
    (∀ u : User, (updateUser db id n e).result = .ok u →
      u.id = id ∧ u.name = n ∧ u.email = e ∧
      (∀ w ∈ db.rows, w.id = id → u.created_at = w.created_at) ∧
      (updateUser db id n e).db.rows.filter (fun v => v.id != id)
        = db.rows.filter (fun v => v.id != id) ∧
      (updateUser db id n e).db.rows.map User.id = db.rows.map User.id) ∧
    ((updateUser db id n e).result = .error .conflict ↔
      (∃ w ∈ db.rows, w.id = id) ∧ (∃ v ∈ db.rows, v.id ≠ id ∧ v.email = e)) ∧
    ((∃ w ∈ db.rows, w.id = id) ∧ (¬∃ v ∈ db.rows, v.id ≠ id ∧ v.email = e) →
      ∃ u : User, (updateUser db id n e).result = .ok u) := by
  rcases hfind : db.rows.find? (fun v => v.id == id) with _ | u₀
  · have hR : updateUser db id n e = ⟨.error .notFound, db, true⟩ := by
      unfold updateUser
      rw [valid_fields_false hn he]
      simp [hr, hfind]
    have hnoW : ¬∃ w ∈ db.rows, w.id = id := by
      rintro ⟨w, hw, hwid⟩
      have := List.find?_eq_none.mp hfind w hw
      simp only [beq_iff_eq] at this
      exact this hwid
    refine ⟨?_, ?_, ?_⟩
    · intro u h
      rw [hR] at h
      cases h
    · rw [hR]
      constructor
      · intro h
        exact absurd (Except.error.inj h) (by intro hh; cases hh)
      · rintro ⟨hW, -⟩
        exact absurd hW hnoW
    · rintro ⟨hW, -⟩
      exact absurd hW hnoW
  · have hu₀id : u₀.id = id := by
      have := List.find?_some hfind
      simpa [beq_iff_eq] using this
    have hu₀mem : u₀ ∈ db.rows := List.mem_of_find?_eq_some hfind
    rcases hany : db.rows.any (fun v => v.email == e && v.id != id) with _ | _
    · have hR : updateUser db id n e =
          ⟨.ok ⟨u₀.id, n, e, u₀.created_at⟩,
           ⟨db.rows.map
              (fun v => if v.id == id then ⟨u₀.id, n, e, u₀.created_at⟩ else v),
            db.nextId, db.usedIds, db.reachable⟩,
           true⟩ := by
        unfold updateUser
        rw [valid_fields_false hn he]
        simp [hr, hfind, hany]
      refine ⟨?_, ?_, ?_⟩
      · intro u h
        rw [hR] at h
        have hu : u = ⟨u₀.id, n, e, u₀.created_at⟩ := (Except.ok.inj h).symm
        subst hu
        refine ⟨hu₀id, rfl, rfl, ?_, ?_, ?_⟩
        · intro w hw hwid
          have hweq : w = u₀ :=
            List.inj_on_of_nodup_map hwf.2.2 hw hu₀mem (by rw [hwid, hu₀id])
          rw [hweq]
        · rw [hR]
          exact filter_ne_map_update (by simpa using hu₀id) db.rows
        · rw [hR]
          exact map_id_update (by simpa using hu₀id) db.rows
      · rw [hR]
        constructor
        · intro h
          cases h
        · rintro ⟨-, hV⟩
          exfalso
          rcases hV with ⟨v, hv, hvne, hvem⟩
          have := List.any_eq_false.mp hany v hv
          rw [Bool.and_eq_true] at this
          exact this ⟨by simpa [beq_iff_eq] using hvem, by simpa [bne_iff_ne] using hvne⟩
      · intro _
        exact ⟨⟨u₀.id, n, e, u₀.created_at⟩, by rw [hR]⟩
    · have hR : updateUser db id n e = ⟨.error .conflict, db, true⟩ := by
        unfold updateUser
        rw [valid_fields_false hn he]
        simp [hr, hfind, hany]
      refine ⟨?_, ?_, ?_⟩
      · intro u h
        rw [hR] at h
        cases h
      · rw [hR]
        constructor
        · intro _
          refine ⟨⟨u₀, hu₀mem, hu₀id⟩, ?_⟩
          rcases List.any_eq_true.mp hany with ⟨v, hv, hp⟩
          rw [Bool.and_eq_true] at hp
          exact ⟨v, hv, by simpa [bne_iff_ne] using hp.2,
                 by simpa [beq_iff_eq] using hp.1⟩
        · intro _
          rfl
      · rintro ⟨-, hV⟩
        exfalso
        rcases List.any_eq_true.mp hany with ⟨v, hv, hp⟩
        rw [Bool.and_eq_true] at hp
        exact hV ⟨v, hv, by simpa [bne_iff_ne] using hp.2,
                  by simpa [beq_iff_eq] using hp.1⟩

theorem update_frame_and_conflict_witness :
    ∃ u : User,
      (updateUser ⟨[⟨1, "John", "john@example.com", 4⟩], 2, [1], true⟩
          1 "John Updated" "john@example.com").result = .ok u :=
  (update_frame_and_conflict ⟨[⟨1, "John", "john@example.com", 4⟩], 2, [1], true⟩
      ⟨by decide, by decide, by decide⟩ rfl 1 "John Updated" "john@example.com"
      (by decide) (by decide)).2.2
    ⟨⟨⟨1, "John", "john@example.com", 4⟩, by decide, rfl⟩, by decide⟩

theorem handleSubmit_contract_witness :
    (submitRequest "/api" ⟨⟨"Bob", "bob@x.io"⟩, some 7⟩).method = "PUT" ∧
    (submitRequest "/api" ⟨⟨"Bob", "bob@x.io"⟩, some 7⟩).url
      = "/api" ++ "/users/" ++ toString 7 :=
  (handleSubmit_contract "/api" ⟨⟨"Bob", "bob@x.io"⟩, some 7⟩ true).2.1 7 rfl
    (by decide)

end MTApp
